import Mathlib

/-!
# Verification of the `nanoduration` Duration value type

Shallow embedding of `src/index.ts`: an immutable, non-negative span of time
stored as a nanosecond count in a JavaScript number, with saturating
arithmetic, comparisons, clamping and a display formatter.

JavaScript numbers (IEEE-754 binary64) are modelled by `JSNum`: NaN, the two
infinities, and finite values carried as exact rationals.  Overflow of an
arithmetic result to ±Infinity — which the library turns into a thrown
`RangeError` via its validator — is modelled exactly at magnitude `2^1024`;
rounding of in-range results, subnormal underflow, and the sign of zero are
not modelled (no claim under verification depends on them).
-/

namespace Nanoduration

/-- A JavaScript number: NaN, +Infinity, -Infinity, or a finite value. -/
inductive JSNum where
  | nan
  | posInf
  | negInf
  | fin (q : ℚ)
deriving DecidableEq, Repr

set_option maxRecDepth 16384

/-- Smallest magnitude at which a finite real result overflows to ±Infinity
in binary64 arithmetic (idealised threshold), `2^1024`.  The power is taken
in `ℕ` and cast, keeping the definition cheap to evaluate. -/
def maxFin : ℚ := ((2 ^ 1024 : ℕ) : ℚ)

/-- Wrap an exact rational result of a double operation, overflowing to
±Infinity at magnitude `2^1024`. -/
def JSNum.ofRat (q : ℚ) : JSNum :=
  if maxFin ≤ q then .posInf
  else if q ≤ -maxFin then .negInf
  else .fin q

/-- `Number.isFinite`. -/
def JSNum.isFinite : JSNum → Bool
  | .fin _ => true
  | _ => false

/-- A `JSNum` that a JavaScript program can actually hold: finite values have
magnitude below `2^1024`. -/
def JSNum.Wf : JSNum → Prop
  | .fin q => |q| < maxFin
  | _ => True

/-- JavaScript `+` on numbers. -/
def JSNum.add : JSNum → JSNum → JSNum
  | .nan, _ => .nan
  | _, .nan => .nan
  | .posInf, .posInf => .posInf
  | .posInf, .negInf => .nan
  | .negInf, .posInf => .nan
  | .negInf, .negInf => .negInf
  | .posInf, .fin _ => .posInf
  | .fin _, .posInf => .posInf
  | .negInf, .fin _ => .negInf
  | .fin _, .negInf => .negInf
  | .fin p, .fin q => .ofRat (p + q)

/-- JavaScript binary `-` on numbers. -/
def JSNum.sub : JSNum → JSNum → JSNum
  | .nan, _ => .nan
  | _, .nan => .nan
  | .posInf, .posInf => .nan
  | .posInf, .negInf => .posInf
  | .negInf, .posInf => .negInf
  | .negInf, .negInf => .nan
  | .posInf, .fin _ => .posInf
  | .fin _, .posInf => .negInf
  | .negInf, .fin _ => .negInf
  | .fin _, .negInf => .posInf
  | .fin p, .fin q => .ofRat (p - q)

/-- JavaScript `*` on numbers. -/
def JSNum.mul : JSNum → JSNum → JSNum
  | .nan, _ => .nan
  | _, .nan => .nan
  | .posInf, .posInf => .posInf
  | .posInf, .negInf => .negInf
  | .negInf, .posInf => .negInf
  | .negInf, .negInf => .posInf
  | .posInf, .fin q => if q = 0 then .nan else if 0 < q then .posInf else .negInf
  | .fin q, .posInf => if q = 0 then .nan else if 0 < q then .posInf else .negInf
  | .negInf, .fin q => if q = 0 then .nan else if 0 < q then .negInf else .posInf
  | .fin q, .negInf => if q = 0 then .nan else if 0 < q then .negInf else .posInf
  | .fin p, .fin q => .ofRat (p * q)

/-- JavaScript `/` on numbers (zero is treated as +0; -0 is not modelled). -/
def JSNum.div : JSNum → JSNum → JSNum
  | .nan, _ => .nan
  | _, .nan => .nan
  | .posInf, .posInf => .nan
  | .posInf, .negInf => .nan
  | .negInf, .posInf => .nan
  | .negInf, .negInf => .nan
  | .posInf, .fin q => if 0 ≤ q then .posInf else .negInf
  | .negInf, .fin q => if 0 ≤ q then .negInf else .posInf
  | .fin _, .posInf => .fin 0
  | .fin _, .negInf => .fin 0
  | .fin p, .fin q =>
    if q = 0 then (if p = 0 then .nan else if 0 < p then .posInf else .negInf)
    else .ofRat (p / q)

/-- The `RangeError`s the library throws, told apart by their message. -/
inductive DurationError where
  /-- `"Value must be finite"`, thrown by `toPositive`; the spec's
  `InvalidDuration`. -/
  | notFinite
  /-- `"Division by zero"`, thrown by `Duration.div`. -/
  | divisionByZero
  /-- `"min must be <= max"`, thrown by `Duration.clamp`. -/
  | minGtMax
deriving DecidableEq, Repr

/-- `toPositive(num)`: throws if `num` is not finite, otherwise saturates
negative values to `0` (`num <= 0 ? 0 : num`). -/
def toPositive : JSNum → Except DurationError ℚ
  | .fin q => .ok (if q ≤ 0 then 0 else q)
  | _ => .error .notFinite

/-- The `Duration` class: the `nanoseconds` field holds the `PositiveNumber`
produced by `toPositive` (a finite rational; non-negativity is proved, not
assumed). -/
structure Duration where
  nanoseconds : ℚ
deriving DecidableEq, Repr

/-- Nanoseconds per microsecond (`1e3`). -/
def Duration.NS_PER_MICRO : ℚ := 1000

/-- Nanoseconds per millisecond (`1e6`). -/
def Duration.NS_PER_MILLI : ℚ := 1000000

/-- Nanoseconds per second (`1e9`). -/
def Duration.NS_PER_SECOND : ℚ := 1000000000

/-- Nanoseconds per minute (`60 * NS_PER_SECOND`). -/
def Duration.NS_PER_MINUTE : ℚ := 60 * Duration.NS_PER_SECOND

/-- Nanoseconds per hour (`60 * NS_PER_MINUTE`). -/
def Duration.NS_PER_HOUR : ℚ := 60 * Duration.NS_PER_MINUTE

/-- `Duration.ZERO = new Duration(toPositive(0))`. -/
def Duration.ZERO : Duration := ⟨0⟩

/-- `Duration.fromNanos(nanos)`. -/
def Duration.fromNanos (nanos : JSNum) : Except DurationError Duration :=
  (toPositive nanos).map Duration.mk

/-- `Duration.fromMicros(micros)`. -/
def Duration.fromMicros (micros : JSNum) : Except DurationError Duration :=
  (toPositive (micros.mul (.fin Duration.NS_PER_MICRO))).map Duration.mk

/-- `Duration.fromMillis(millis)`. -/
def Duration.fromMillis (millis : JSNum) : Except DurationError Duration :=
  (toPositive (millis.mul (.fin Duration.NS_PER_MILLI))).map Duration.mk

/-- `Duration.fromSecs(secs)`. -/
def Duration.fromSecs (secs : JSNum) : Except DurationError Duration :=
  (toPositive (secs.mul (.fin Duration.NS_PER_SECOND))).map Duration.mk

/-- `Duration.fromMinutes(minutes)`. -/
def Duration.fromMinutes (minutes : JSNum) : Except DurationError Duration :=
  (toPositive (minutes.mul (.fin Duration.NS_PER_MINUTE))).map Duration.mk

/-- `Duration.fromHours(hours)`. -/
def Duration.fromHours (hours : JSNum) : Except DurationError Duration :=
  (toPositive (hours.mul (.fin Duration.NS_PER_HOUR))).map Duration.mk

/-- `asNanos()`: returns the stored count. -/
def Duration.asNanos (d : Duration) : JSNum := .fin d.nanoseconds

/-- `asMicros()`. -/
def Duration.asMicros (d : Duration) : JSNum :=
  (JSNum.fin d.nanoseconds).div (.fin Duration.NS_PER_MICRO)

/-- `asMillis()`. -/
def Duration.asMillis (d : Duration) : JSNum :=
  (JSNum.fin d.nanoseconds).div (.fin Duration.NS_PER_MILLI)

/-- `asSecs()`. -/
def Duration.asSecs (d : Duration) : JSNum :=
  (JSNum.fin d.nanoseconds).div (.fin Duration.NS_PER_SECOND)

/-- `asMinutes()`. -/
def Duration.asMinutes (d : Duration) : JSNum :=
  (JSNum.fin d.nanoseconds).div (.fin Duration.NS_PER_MINUTE)

/-- `asHours()`. -/
def Duration.asHours (d : Duration) : JSNum :=
  (JSNum.fin d.nanoseconds).div (.fin Duration.NS_PER_HOUR)

/-- `add(other)`: validated sum of the two counts. -/
def Duration.add (a other : Duration) : Except DurationError Duration :=
  (toPositive ((JSNum.fin a.nanoseconds).add (.fin other.nanoseconds))).map Duration.mk

/-- `sub(other)`: validated difference of the two counts. -/
def Duration.sub (a other : Duration) : Except DurationError Duration :=
  (toPositive ((JSNum.fin a.nanoseconds).sub (.fin other.nanoseconds))).map Duration.mk

/-- `mul(factor)`: validated product of the count and the factor. -/
def Duration.mul (a : Duration) (factor : JSNum) : Except DurationError Duration :=
  (toPositive ((JSNum.fin a.nanoseconds).mul factor)).map Duration.mk

/-- `div(divisor)`: throws `Division by zero` when `divisor === 0`, else the
validated quotient. -/
def Duration.div (a : Duration) (divisor : JSNum) : Except DurationError Duration :=
  if divisor = .fin 0 then .error .divisionByZero
  else (toPositive ((JSNum.fin a.nanoseconds).div divisor)).map Duration.mk

/-- `eq(other)`. -/
def Duration.eq (a other : Duration) : Bool := a.nanoseconds == other.nanoseconds

/-- `lt(other)`. -/
def Duration.lt (a other : Duration) : Bool := a.nanoseconds < other.nanoseconds

/-- `le(other)`. -/
def Duration.le (a other : Duration) : Bool := a.nanoseconds ≤ other.nanoseconds

/-- `gt(other)`. -/
def Duration.gt (a other : Duration) : Bool := other.nanoseconds < a.nanoseconds

/-- `ge(other)`. -/
def Duration.ge (a other : Duration) : Bool := other.nanoseconds ≤ a.nanoseconds

/-- `isZero()`. -/
def Duration.isZero (d : Duration) : Bool := d.nanoseconds == 0

/-- `clamp(min, max)`: throws when `min.gt(max)`, else validates
`Math.min(Math.max(this.nanoseconds, min.nanoseconds), max.nanoseconds)`
(on finite doubles `Math.min`/`Math.max` are ordinary min/max). -/
def Duration.clamp (d lo hi : Duration) : Except DurationError Duration :=
  if lo.gt hi then .error .minGtMax
  else (toPositive (.fin (min (max d.nanoseconds lo.nanoseconds) hi.nanoseconds))).map
    Duration.mk

/-- Truncation toward zero, as JavaScript's remainder operator uses. -/
def jsTrunc (q : ℚ) : ℤ := if 0 ≤ q then q.floor else q.ceil

/-- JavaScript `%` on finite numbers with a nonzero right operand:
`a - b * trunc(a / b)` (exact for doubles; `toString` only ever uses the
nonzero unit scale factors as right operand). -/
def jsMod (a b : ℚ) : ℚ := a - b * (jsTrunc (a / b) : ℚ)

/-- Strip as many factors `p ≥ 2` from `n` as the fuel allows, returning the
exponent found and the remaining cofactor. -/
def stripPow (p : ℕ) : ℕ → ℕ → ℕ × ℕ
  | 0, n => (0, n)
  | fuel + 1, n =>
    if 2 ≤ p ∧ p ∣ n ∧ n ≠ 0 then
      let r := stripPow p fuel (n / p)
      (r.1 + 1, r.2)
    else (0, n)

/-- Drop trailing `0` characters from a digit string. -/
def dropTrailingZeros (s : String) : String :=
  String.mk (s.toList.reverse.dropWhile (fun c => c == '0')).reverse

/-- Left-pad a digit string with `0` up to the given length. -/
def padZeros (s : String) (len : ℕ) : String :=
  String.mk (List.replicate (len - s.toList.length) '0') ++ s

/-- Decimal rendering of the exact value of a JavaScript number, as default
number-to-string conversion produces for values in the plain-decimal regime:
minimal decimal digits, no exponent, no trailing zeros.  Every value a double
can hold is a dyadic rational, so its decimal expansion terminates; the
non-terminating branch (reachable only for model values no double represents
exactly) falls back to a fraction rendering.  The exponential-notation regime
(magnitude ≥ 1e21 or below 1e-6) is not modelled. -/
def ratToString (q : ℚ) : String :=
  let sign := if q < 0 then "-" else ""
  let qa := |q|
  let two := stripPow 2 qa.den qa.den
  let five := stripPow 5 two.2 two.2
  if five.2 = 1 then
    let k := max two.1 five.1
    let scaled := (qa * 10 ^ k).num.toNat
    if k = 0 then sign ++ toString scaled
    else
      let s := padZeros (toString scaled) (k + 1)
      let frac := dropTrailingZeros (s.takeRight k)
      if frac.isEmpty then sign ++ s.dropRight k
      else sign ++ s.dropRight k ++ "." ++ frac
  else sign ++ toString qa.num ++ "/" ++ toString qa.den

/-- The `round` helper inside `toString()`:
`Number.isInteger(n) ? n : Number(n.toFixed(6))`.  `toFixed(6)` picks the
integer numerator of six decimal places closest to the value, ties toward the
larger integer, which is `⌊n * 10^6 + 1/2⌋ / 10^6`. -/
def round6 (n : ℚ) : ℚ :=
  if n.den = 1 then n else ((n * 1000000 + 1 / 2 : ℚ).floor : ℚ) / 1000000

/-- `toString()`: scan hour, minute, second, millisecond, microsecond in that
order; the first unit whose scale divides the count with zero remainder
formats it (rounded to six decimal places when fractional), else fall back to
raw nanoseconds.  The branch magnitudes are the observers' values computed on
the exact count (`round(this.asHours())` and so on; for any count a double
can hold these divisions are finite).  The microsecond suffix reproduces the
source file's bytes verbatim. -/
def Duration.toString (d : Duration) : String :=
  let n := d.nanoseconds
  if jsMod n Duration.NS_PER_HOUR = 0 then
    ratToString (round6 (n / Duration.NS_PER_HOUR)) ++ "h"
  else if jsMod n Duration.NS_PER_MINUTE = 0 then
    ratToString (round6 (n / Duration.NS_PER_MINUTE)) ++ "m"
  else if jsMod n Duration.NS_PER_SECOND = 0 then
    ratToString (round6 (n / Duration.NS_PER_SECOND)) ++ "s"
  else if jsMod n Duration.NS_PER_MILLI = 0 then
    ratToString (round6 (n / Duration.NS_PER_MILLI)) ++ "ms"
  else if jsMod n Duration.NS_PER_MICRO = 0 then
    ratToString (round6 (n / Duration.NS_PER_MICRO)) ++ "Âµs"
  else ratToString n ++ "ns"

/-- The display units of `toString` in the spec's words: the descending scan
list hour, minute, second, millisecond, microsecond with their short codes. -/
def unitScan : List (ℚ × String) :=
  [(Duration.NS_PER_HOUR, "h"), (Duration.NS_PER_MINUTE, "m"),
   (Duration.NS_PER_SECOND, "s"), (Duration.NS_PER_MILLI, "ms"),
   (Duration.NS_PER_MICRO, "Âµs")]

/-- `toString` as the spec words it: find the first unit in the descending
scan whose scale divides the count evenly and format with it, falling back to
raw nanoseconds when none does. -/
def specToString (d : Duration) : String :=
  match unitScan.find? (fun u => jsMod d.nanoseconds u.1 == 0) with
  | some u => ratToString (round6 (d.nanoseconds / u.1)) ++ u.2
  | none => ratToString d.nanoseconds ++ "ns"

/-- The finite non-negative invariant on a stored count, with the model's
bound standing in for finiteness of the double. -/
def Duration.Valid (d : Duration) : Prop :=
  0 ≤ d.nanoseconds ∧ d.nanoseconds < maxFin

instance (d : Duration) : Decidable d.Valid := by
  unfold Duration.Valid
  infer_instance

instance {ε α : Type} [DecidableEq ε] [DecidableEq α] : DecidableEq (Except ε α) :=
  fun a b =>
    match a, b with
    | .error e, .error f =>
      if h : e = f then isTrue (congrArg Except.error h)
      else isFalse (fun hc => h (Except.error.inj hc))
    | .error _, .ok _ => isFalse (fun hc => Except.noConfusion hc)
    | .ok _, .error _ => isFalse (fun hc => Except.noConfusion hc)
    | .ok x, .ok y =>
      if h : x = y then isTrue (congrArg Except.ok h)
      else isFalse (fun hc => h (Except.ok.inj hc))

lemma maxFin_pos : (0 : ℚ) < maxFin := by norm_num [maxFin]

lemma toPositive_ok_iff {v : JSNum} {q : ℚ} :
    toPositive v = .ok q ↔ ∃ p, v = .fin p ∧ q = if p ≤ 0 then 0 else p := by
  cases v <;> simp [toPositive, eq_comm]

lemma toPositive_error_iff {v : JSNum} {e : DurationError} :
    toPositive v = .error e ↔ v.isFinite = false ∧ e = .notFinite := by
  cases v <;> simp [toPositive, JSNum.isFinite, eq_comm]

lemma ofRat_fin_iff {r p : ℚ} : JSNum.ofRat r = .fin p ↔ |r| < maxFin ∧ p = r := by
  constructor
  · intro h
    unfold JSNum.ofRat at h
    split at h
    · exact absurd h (by simp)
    · split at h
      · exact absurd h (by simp)
      · rename_i h1 h2
        injection h with h3
        exact ⟨abs_lt.mpr ⟨by linarith, by linarith⟩, h3.symm⟩
  · rintro ⟨hr, rfl⟩
    unfold JSNum.ofRat
    rw [if_neg (by linarith [(abs_lt.mp hr).2]), if_neg (by linarith [(abs_lt.mp hr).1])]

lemma toPositive_ofRat_ok {r q : ℚ} (h : toPositive (JSNum.ofRat r) = .ok q) :
    0 ≤ q ∧ q < maxFin := by
  rcases toPositive_ok_iff.mp h with ⟨p, hp, hq⟩
  rcases ofRat_fin_iff.mp hp with ⟨hr, rfl⟩
  subst hq
  split
  · exact ⟨le_refl 0, maxFin_pos⟩
  · exact ⟨by linarith, (abs_lt.mp hr).2⟩

lemma toPositive_add_ok {x y : JSNum} {q : ℚ}
    (h : toPositive (JSNum.add x y) = .ok q) : 0 ≤ q ∧ q < maxFin := by
  cases x <;> cases y <;> simp only [JSNum.add] at h
  all_goals first
    | exact toPositive_ofRat_ok h
    | simp [toPositive] at h

lemma toPositive_sub_ok {x y : JSNum} {q : ℚ}
    (h : toPositive (JSNum.sub x y) = .ok q) : 0 ≤ q ∧ q < maxFin := by
  cases x <;> cases y <;> simp only [JSNum.sub] at h
  all_goals first
    | exact toPositive_ofRat_ok h
    | simp [toPositive] at h

lemma toPositive_mul_ok {x y : JSNum} {q : ℚ}
    (h : toPositive (JSNum.mul x y) = .ok q) : 0 ≤ q ∧ q < maxFin := by
  cases x <;> cases y <;> simp only [JSNum.mul] at h
  all_goals repeat' split at h
  all_goals first
    | exact toPositive_ofRat_ok h
    | simp [toPositive] at h

lemma toPositive_div_ok {x y : JSNum} {q : ℚ}
    (h : toPositive (JSNum.div x y) = .ok q) : 0 ≤ q ∧ q < maxFin := by
  cases x <;> cases y <;> simp only [JSNum.div] at h
  all_goals repeat' split at h
  all_goals first
    | exact toPositive_ofRat_ok h
    | simp [toPositive] at h
  all_goals cases h
  all_goals exact ⟨le_rfl, maxFin_pos⟩

lemma map_mk_ok_iff {v : JSNum} {d : Duration} :
    (toPositive v).map Duration.mk = .ok d ↔ toPositive v = .ok d.nanoseconds := by
  cases hv : toPositive v <;> simp [Except.map]
  constructor
  · rintro rfl
    rfl
  · intro h
    exact congrArg Duration.mk h

lemma map_mk_error_iff {v : JSNum} {e : DurationError} :
    (toPositive v).map Duration.mk = .error e ↔ toPositive v = .error e := by
  cases hv : toPositive v <;> simp [Except.map]

lemma toPositive_wf_ok {x : JSNum} {q : ℚ} (hwf : x.Wf) (h : toPositive x = .ok q) :
    0 ≤ q ∧ q < maxFin := by
  rcases toPositive_ok_iff.mp h with ⟨p, rfl, hq⟩
  subst hq
  simp only [JSNum.Wf] at hwf
  split
  · exact ⟨le_rfl, maxFin_pos⟩
  · exact ⟨by linarith, lt_of_le_of_lt (le_abs_self p) hwf⟩

/-- The Durations reachable through the public API from numbers a JavaScript
program can hold: the six unit constructors, the `ZERO` constant, `add`,
`sub`, `mul`, `div` and `clamp`, each taken only when it returns a value. -/
inductive Reachable : Duration → Prop where
  | zero : Reachable Duration.ZERO
  | ofNanos {x : JSNum} {d : Duration} :
      x.Wf → Duration.fromNanos x = .ok d → Reachable d
  | ofMicros {x : JSNum} {d : Duration} :
      x.Wf → Duration.fromMicros x = .ok d → Reachable d
  | ofMillis {x : JSNum} {d : Duration} :
      x.Wf → Duration.fromMillis x = .ok d → Reachable d
  | ofSecs {x : JSNum} {d : Duration} :
      x.Wf → Duration.fromSecs x = .ok d → Reachable d
  | ofMinutes {x : JSNum} {d : Duration} :
      x.Wf → Duration.fromMinutes x = .ok d → Reachable d
  | ofHours {x : JSNum} {d : Duration} :
      x.Wf → Duration.fromHours x = .ok d → Reachable d
  | ofAdd {a b d : Duration} :
      Reachable a → Reachable b → Duration.add a b = .ok d → Reachable d
  | ofSub {a b d : Duration} :
      Reachable a → Reachable b → Duration.sub a b = .ok d → Reachable d
  | ofMul {a d : Duration} {k : JSNum} :
      Reachable a → k.Wf → Duration.mul a k = .ok d → Reachable d
  | ofDiv {a d : Duration} {k : JSNum} :
      Reachable a → k.Wf → Duration.div a k = .ok d → Reachable d
  | ofClamp {a lo hi d : Duration} :
      Reachable a → Reachable lo → Reachable hi →
      Duration.clamp a lo hi = .ok d → Reachable d

/-- **C1**: every Duration reachable through the public API (the six unit
constructors, `ZERO`, `add`, `sub`, `mul`, `div`, `clamp`) has a finite,
non-negative internal nanosecond count as observed by `asNanos()` — in the
model, a rational count in `[0, 2^1024)`; every operation preserves the
invariant or rejects/clamps its input. -/
theorem reachable_count_finite_nonneg (d : Duration) (h : Reachable d) :
    0 ≤ d.nanoseconds ∧ d.nanoseconds < maxFin ∧ d.asNanos.isFinite = true := by
  induction h with
  | zero => exact ⟨le_rfl, maxFin_pos, rfl⟩
  | ofNanos hwf h =>
    rcases toPositive_wf_ok hwf (map_mk_ok_iff.mp h) with ⟨h1, h2⟩
    exact ⟨h1, h2, rfl⟩
  | ofMicros hwf h =>
    rcases toPositive_mul_ok (map_mk_ok_iff.mp h) with ⟨h1, h2⟩
    exact ⟨h1, h2, rfl⟩
  | ofMillis hwf h =>
    rcases toPositive_mul_ok (map_mk_ok_iff.mp h) with ⟨h1, h2⟩
    exact ⟨h1, h2, rfl⟩
  | ofSecs hwf h =>
    rcases toPositive_mul_ok (map_mk_ok_iff.mp h) with ⟨h1, h2⟩
    exact ⟨h1, h2, rfl⟩
  | ofMinutes hwf h =>
    rcases toPositive_mul_ok (map_mk_ok_iff.mp h) with ⟨h1, h2⟩
    exact ⟨h1, h2, rfl⟩
  | ofHours hwf h =>
    rcases toPositive_mul_ok (map_mk_ok_iff.mp h) with ⟨h1, h2⟩
    exact ⟨h1, h2, rfl⟩
  | ofAdd ha hb h iha ihb =>
    rcases toPositive_add_ok (map_mk_ok_iff.mp h) with ⟨h1, h2⟩
    exact ⟨h1, h2, rfl⟩
  | ofSub ha hb h iha ihb =>
    rcases toPositive_sub_ok (map_mk_ok_iff.mp h) with ⟨h1, h2⟩
    exact ⟨h1, h2, rfl⟩
  | ofMul ha hwf h iha =>
    rcases toPositive_mul_ok (map_mk_ok_iff.mp h) with ⟨h1, h2⟩
    exact ⟨h1, h2, rfl⟩
  | ofDiv ha hwf h iha =>
    unfold Duration.div at h
    split at h
    · exact absurd h (by simp)
    · rcases toPositive_div_ok (map_mk_ok_iff.mp h) with ⟨h1, h2⟩
      exact ⟨h1, h2, rfl⟩
  | ofClamp ha hlo hhi h iha ihlo ihhi =>
    unfold Duration.clamp at h
    split at h
    · exact absurd h (by simp)
    · rcases toPositive_ok_iff.mp (map_mk_ok_iff.mp h) with ⟨p, hp, hq⟩
      injection hp with hp
      subst hp
      refine ⟨?_, ?_, rfl⟩ <;> rw [hq]
      · split
        · exact le_rfl
        · rename_i hpos
          push_neg at hpos
          exact le_of_lt hpos
      · split
        · exact maxFin_pos
        · exact lt_of_le_of_lt inf_le_right ihhi.2.1

/-- Witness for C1 at the concrete duration `ZERO`. -/
theorem reachable_count_finite_nonneg_witness :
    0 ≤ Duration.ZERO.nanoseconds ∧ Duration.ZERO.nanoseconds < maxFin ∧
      Duration.ZERO.asNanos.isFinite = true :=
  reachable_count_finite_nonneg Duration.ZERO Reachable.zero

section ConcreteEvaluation

/- Batteries marks the `Rat` arithmetic operations `@[irreducible]`; letting
the elaborator unfold them again makes concrete runs of the embedded
operations provable by `decide`. -/
attribute [local semireducible] Rat.mul Rat.add Rat.sub Rat.inv

/-- **C2**: the validator (and `fromNanos`, whose scale factor is 1) rejects
every non-finite input with the `InvalidDuration` error and produces no
value; a finite negative input yields the zero count with no error; a finite
non-negative input is stored unchanged. -/
theorem validator_spec :
    (∀ x : JSNum, x.isFinite = false →
      toPositive x = .error .notFinite ∧ Duration.fromNanos x = .error .notFinite) ∧
    (∀ q : ℚ, q < 0 → Duration.fromNanos (.fin q) = .ok ⟨0⟩) ∧
    (∀ q : ℚ, 0 ≤ q → Duration.fromNanos (.fin q) = .ok ⟨q⟩) := by
  refine ⟨fun x hx => ?_, fun q hq => ?_, fun q hq => ?_⟩
  · cases x <;> simp_all [toPositive, Duration.fromNanos, Except.map, JSNum.isFinite]
  · simp [Duration.fromNanos, toPositive, Except.map, le_of_lt hq]
  · simp only [Duration.fromNanos, toPositive, Except.map]
    split
    · rename_i hle
      have : q = 0 := le_antisymm hle hq
      simp [this]
    · rfl

/-- Witness for C2: `NaN` is rejected, `-5` saturates to zero, `7` is kept. -/
theorem validator_spec_witness :
    (toPositive .nan = .error .notFinite ∧
      Duration.fromNanos .nan = .error .notFinite) ∧
    Duration.fromNanos (.fin (-5)) = .ok ⟨0⟩ ∧
    Duration.fromNanos (.fin 7) = .ok ⟨7⟩ :=
  ⟨validator_spec.1 .nan rfl, validator_spec.2.1 (-5) (by norm_num),
    validator_spec.2.2 7 (by norm_num)⟩

/-- **C3**: for all valid Durations `a` and `b`, `a.sub(b)` never fails: it
returns the difference of the counts when non-negative and exactly `0`
otherwise; in particular `fromSecs(1).sub(fromSecs(5)).isZero()` is true. -/
theorem sub_saturates :
    (∀ a b : Duration, a.Valid → b.Valid →
      Duration.sub a b =
        .ok (if b.nanoseconds ≤ a.nanoseconds
          then ⟨a.nanoseconds - b.nanoseconds⟩ else ⟨0⟩)) ∧
    ((do
        let a ← Duration.fromSecs (.fin 1)
        let b ← Duration.fromSecs (.fin 5)
        let c ← Duration.sub a b
        pure c.isZero) = Except.ok true) := by
  constructor
  · rintro a b ⟨ha0, ha1⟩ ⟨hb0, hb1⟩
    have hfin : JSNum.ofRat (a.nanoseconds - b.nanoseconds) =
        .fin (a.nanoseconds - b.nanoseconds) :=
      ofRat_fin_iff.mpr ⟨abs_lt.mpr ⟨by linarith, by linarith⟩, rfl⟩
    show (toPositive (JSNum.ofRat (a.nanoseconds - b.nanoseconds))).map Duration.mk = _
    rw [hfin]
    simp only [toPositive, Except.map]
    congr 1
    split_ifs with h1 h2 h2
    · congr 1
      linarith
    · rfl
    · rfl
    · push_neg at h2
      exact absurd (by linarith : a.nanoseconds - b.nanoseconds ≤ 0) h1
  · decide

/-- Witness for C3: `fromSecs(1).sub(fromSecs(5))` saturates to the zero
duration. -/
theorem sub_saturates_witness :
    Duration.sub ⟨1000000000⟩ ⟨5000000000⟩ = .ok ⟨0⟩ := by
  have h := sub_saturates.1 ⟨1000000000⟩ ⟨5000000000⟩ (by decide) (by decide)
  simpa using h

lemma op_error_iff {v : JSNum} :
    (toPositive v).map Duration.mk = .error .notFinite ↔ v.isFinite = false := by
  rw [map_mk_error_iff, toPositive_error_iff]
  simp

/-- Counterexample to C4 as stated: `fromSecs(1).div(2^-1074)` raises
`InvalidDuration` (the quotient overflows to Infinity) although the divisor
is finite and nonzero, no sum or product is involved, and the input is not a
constructor input — a case outside the claim's enumeration. -/
theorem div_finite_divisor_raises :
    (Duration.fromSecs (.fin 1)).bind
        (fun d => d.div (.fin (1 / ((2 ^ 1074 : ℕ) : ℚ)))) = .error .notFinite ∧
    JSNum.isFinite (.fin (1 / ((2 ^ 1074 : ℕ) : ℚ))) = true ∧
    (JSNum.fin (1 / ((2 ^ 1074 : ℕ) : ℚ))) ≠ .fin 0 := by
  refine ⟨by decide, rfl, by decide⟩

/-- **C4 (amended)**: an operation raises `InvalidDuration` exactly when the
raw magnitude handed to the validator is non-finite: a non-finite or
overflowing scaled constructor input, a sum in `add` or a product in `mul`
that overflows to ±infinity, a non-finite factor in `mul`, a non-finite
divisor in `div`, or a quotient in `div` that overflows to ±infinity;
`sub` and `clamp` never raise it, and no `InvalidDuration` arises in any
other case (the error is returned at the offending call itself). -/
theorem invalidDuration_characterization :
    (∀ x : JSNum, Duration.fromNanos x = .error .notFinite ↔ x.isFinite = false) ∧
    (∀ x : JSNum, Duration.fromMicros x = .error .notFinite ↔
      (x.mul (.fin Duration.NS_PER_MICRO)).isFinite = false) ∧
    (∀ x : JSNum, Duration.fromMillis x = .error .notFinite ↔
      (x.mul (.fin Duration.NS_PER_MILLI)).isFinite = false) ∧
    (∀ x : JSNum, Duration.fromSecs x = .error .notFinite ↔
      (x.mul (.fin Duration.NS_PER_SECOND)).isFinite = false) ∧
    (∀ x : JSNum, Duration.fromMinutes x = .error .notFinite ↔
      (x.mul (.fin Duration.NS_PER_MINUTE)).isFinite = false) ∧
    (∀ x : JSNum, Duration.fromHours x = .error .notFinite ↔
      (x.mul (.fin Duration.NS_PER_HOUR)).isFinite = false) ∧
    (∀ a b : Duration, Duration.add a b = .error .notFinite ↔
      ((JSNum.fin a.nanoseconds).add (.fin b.nanoseconds)).isFinite = false) ∧
    (∀ a b : Duration, a.Valid → b.Valid → Duration.sub a b ≠ .error .notFinite) ∧
    (∀ (a : Duration) (k : JSNum), Duration.mul a k = .error .notFinite ↔
      ((JSNum.fin a.nanoseconds).mul k).isFinite = false) ∧
    (∀ (a : Duration) (k : JSNum), Duration.div a k = .error .notFinite ↔
      (k ≠ .fin 0 ∧ ((JSNum.fin a.nanoseconds).div k).isFinite = false)) ∧
    (∀ d lo hi : Duration, Duration.clamp d lo hi ≠ .error .notFinite) := by
  refine ⟨fun x => op_error_iff, fun x => op_error_iff, fun x => op_error_iff,
    fun x => op_error_iff, fun x => op_error_iff, fun x => op_error_iff,
    fun a b => op_error_iff, ?_, fun a k => op_error_iff, ?_, ?_⟩
  · rintro a b ⟨ha0, ha1⟩ ⟨hb0, hb1⟩ hc
    have h := op_error_iff.mp hc
    have hfin : JSNum.ofRat (a.nanoseconds - b.nanoseconds) =
        .fin (a.nanoseconds - b.nanoseconds) :=
      ofRat_fin_iff.mpr ⟨abs_lt.mpr ⟨by linarith, by linarith⟩, rfl⟩
    have : ((JSNum.fin a.nanoseconds).sub (.fin b.nanoseconds)).isFinite = false := h
    rw [show (JSNum.fin a.nanoseconds).sub (.fin b.nanoseconds) =
        JSNum.ofRat (a.nanoseconds - b.nanoseconds) from rfl, hfin] at this
    exact absurd this (by simp [JSNum.isFinite])
  · intro a k
    unfold Duration.div
    split
    · rename_i hk
      subst hk
      simp
    · rename_i hk
      rw [op_error_iff]
      simp [hk]
  · intro d lo hi
    unfold Duration.clamp
    split
    · simp
    · intro hc
      exact absurd (op_error_iff.mp hc) (by simp [JSNum.isFinite])

/-- Witness for C4 at concrete inputs: `fromNanos(NaN)` raises
`InvalidDuration`, and `ZERO.sub(ZERO)` does not. -/
theorem invalidDuration_characterization_witness :
    (Duration.fromNanos .nan = .error .notFinite ↔ JSNum.isFinite .nan = false) ∧
    Duration.sub Duration.ZERO Duration.ZERO ≠ .error .notFinite :=
  ⟨invalidDuration_characterization.1 .nan,
    invalidDuration_characterization.2.2.2.2.2.2.2.1 Duration.ZERO Duration.ZERO
      (by decide) (by decide)⟩

/-- Counterexample to C5 as stated: for the finite negative divisor
`-2^-1074` the quotient of `fromSecs(1)` overflows to -Infinity, so the call
raises `InvalidDuration` instead of returning the zero Duration. -/
theorem div_negative_divisor_raises :
    (Duration.fromSecs (.fin 1)).bind
        (fun d => d.div (.fin (-(1 / ((2 ^ 1074 : ℕ) : ℚ))))) = .error .notFinite ∧
    (-(1 / ((2 ^ 1074 : ℕ) : ℚ)) : ℚ) < 0 ∧
    JSNum.isFinite (.fin (-(1 / ((2 ^ 1074 : ℕ) : ℚ)))) = true :=
  ⟨by decide, by decide, rfl⟩

/-- **C5 (amended)**: `d.div(k)` fails with the divide-by-zero range error
iff `k` is exactly zero, and that test runs before the quotient is formed;
for a finite negative divisor whose raw quotient does not overflow the result
is the zero Duration with no error; for a positive divisor whose quotient
does not overflow the result's count is the validated quotient. -/
theorem div_spec :
    (∀ (a : Duration) (k : JSNum),
      Duration.div a k = .error .divisionByZero ↔ k = .fin 0) ∧
    (∀ (a : Duration) (q : ℚ), a.Valid → q < 0 →
      -maxFin < a.nanoseconds / q → Duration.div a (.fin q) = .ok ⟨0⟩) ∧
    (∀ (a : Duration) (q : ℚ), a.Valid → 0 < q →
      a.nanoseconds / q < maxFin →
      Duration.div a (.fin q) = .ok ⟨a.nanoseconds / q⟩) := by
  refine ⟨fun a k => ?_, ?_, ?_⟩
  · unfold Duration.div
    split
    · rename_i h
      simp [h]
    · rename_i h
      simp [map_mk_error_iff, toPositive_error_iff, h]
  · rintro a q ⟨ha0, ha1⟩ hq hlow
    unfold Duration.div
    rw [if_neg (by intro hc; injection hc with hc; exact absurd hc (ne_of_lt hq))]
    have hquo : a.nanoseconds / q ≤ 0 :=
      div_nonpos_iff.mpr (Or.inl ⟨ha0, le_of_lt hq⟩)
    have h1 : (JSNum.fin a.nanoseconds).div (.fin q) =
        JSNum.ofRat (a.nanoseconds / q) := by
      simp [JSNum.div, ne_of_lt hq]
    have h2 : JSNum.ofRat (a.nanoseconds / q) = .fin (a.nanoseconds / q) :=
      ofRat_fin_iff.mpr ⟨abs_lt.mpr ⟨hlow, lt_of_le_of_lt hquo maxFin_pos⟩, rfl⟩
    rw [h1, h2]
    simp [toPositive, Except.map, hquo]
  · rintro a q ⟨ha0, ha1⟩ hq hov
    unfold Duration.div
    rw [if_neg (by intro hc; injection hc with hc; exact absurd hc (ne_of_gt hq))]
    have hquo : 0 ≤ a.nanoseconds / q := div_nonneg ha0 (le_of_lt hq)
    have h1 : (JSNum.fin a.nanoseconds).div (.fin q) =
        JSNum.ofRat (a.nanoseconds / q) := by
      simp [JSNum.div, ne_of_gt hq]
    have h2 : JSNum.ofRat (a.nanoseconds / q) = .fin (a.nanoseconds / q) :=
      ofRat_fin_iff.mpr ⟨abs_lt.mpr ⟨by linarith [maxFin_pos], hov⟩, rfl⟩
    rw [h1, h2]
    simp only [toPositive, Except.map]
    congr 1
    split_ifs with h
    · exact congrArg Duration.mk (le_antisymm hquo h)
    · rfl

/-- Witness for C5: `div(0)` raises the divide-by-zero error, `div(-1)`
saturates to zero, `div(2)` halves the count. -/
theorem div_spec_witness :
    Duration.div ⟨1000000000⟩ (.fin 0) = .error .divisionByZero ∧
    Duration.div ⟨1000000000⟩ (.fin (-1)) = .ok ⟨0⟩ ∧
    Duration.div ⟨1000000000⟩ (.fin 2) = .ok ⟨1000000000 / 2⟩ :=
  ⟨(div_spec.1 ⟨1000000000⟩ (.fin 0)).mpr rfl,
    div_spec.2.1 ⟨1000000000⟩ (-1) (by decide) (by norm_num) (by decide),
    div_spec.2.2 ⟨1000000000⟩ 2 (by decide) (by norm_num) (by decide)⟩

/-- Counterexample to C6 as stated: `2^1023` is a finite non-negative double,
yet `fromSecs(2^1023)` raises `InvalidDuration` (the scaled count overflows),
so no round-trip value exists for it. -/
theorem fromSecs_huge_finite_input_overflows :
    Duration.fromSecs (.fin ((2 ^ 1023 : ℕ) : ℚ)) = .error .notFinite ∧
    JSNum.isFinite (.fin ((2 ^ 1023 : ℕ) : ℚ)) = true ∧
    (0 : ℚ) ≤ ((2 ^ 1023 : ℕ) : ℚ) :=
  ⟨by decide, rfl, by decide⟩

/-- **C6 (amended)**: for every finite `x ≥ 0` whose scaled count does not
overflow, `fromSecs(x).asSecs() == x` (exactly, in the model, which does not
round in-range results) and `fromMillis(x).asSecs() == x / 1000`. -/
theorem roundtrip_secs_millis :
    (∀ q : ℚ, 0 ≤ q → q * Duration.NS_PER_SECOND < maxFin →
      (Duration.fromSecs (.fin q)).map Duration.asSecs = .ok (.fin q)) ∧
    (∀ q : ℚ, 0 ≤ q → q * Duration.NS_PER_MILLI < maxFin →
      (Duration.fromMillis (.fin q)).map Duration.asSecs =
        .ok (.fin (q / 1000))) := by
  constructor
  · intro q hq hov
    have hS : (0:ℚ) < Duration.NS_PER_SECOND := by norm_num [Duration.NS_PER_SECOND]
    have hqS : 0 ≤ q * Duration.NS_PER_SECOND := mul_nonneg hq (le_of_lt hS)
    have h1 : JSNum.ofRat (q * Duration.NS_PER_SECOND) =
        .fin (q * Duration.NS_PER_SECOND) :=
      ofRat_fin_iff.mpr ⟨abs_lt.mpr ⟨by linarith [maxFin_pos], hov⟩, rfl⟩
    have h2 : Duration.fromSecs (.fin q) = .ok ⟨q * Duration.NS_PER_SECOND⟩ := by
      show (toPositive ((JSNum.fin q).mul (.fin Duration.NS_PER_SECOND))).map
          Duration.mk = _
      rw [show (JSNum.fin q).mul (.fin Duration.NS_PER_SECOND) =
          JSNum.ofRat (q * Duration.NS_PER_SECOND) from rfl, h1]
      simp only [toPositive, Except.map]
      congr 1
      split_ifs with h
      · exact congrArg Duration.mk (le_antisymm hqS h)
      · rfl
    rw [h2]
    simp only [Except.map]
    show Except.ok (JSNum.ofRat (q * Duration.NS_PER_SECOND / Duration.NS_PER_SECOND)) = _
    rw [mul_div_cancel_right₀ q (ne_of_gt hS)]
    rw [ofRat_fin_iff.mpr ⟨abs_lt.mpr
      ⟨by linarith [maxFin_pos], lt_of_le_of_lt
        (le_mul_of_one_le_right hq (by norm_num [Duration.NS_PER_SECOND])) hov⟩, rfl⟩]
  · intro q hq hov
    have hM : (0:ℚ) < Duration.NS_PER_MILLI := by norm_num [Duration.NS_PER_MILLI]
    have hqM : 0 ≤ q * Duration.NS_PER_MILLI := mul_nonneg hq (le_of_lt hM)
    have h1 : JSNum.ofRat (q * Duration.NS_PER_MILLI) =
        .fin (q * Duration.NS_PER_MILLI) :=
      ofRat_fin_iff.mpr ⟨abs_lt.mpr ⟨by linarith [maxFin_pos], hov⟩, rfl⟩
    have h2 : Duration.fromMillis (.fin q) = .ok ⟨q * Duration.NS_PER_MILLI⟩ := by
      show (toPositive ((JSNum.fin q).mul (.fin Duration.NS_PER_MILLI))).map
          Duration.mk = _
      rw [show (JSNum.fin q).mul (.fin Duration.NS_PER_MILLI) =
          JSNum.ofRat (q * Duration.NS_PER_MILLI) from rfl, h1]
      simp only [toPositive, Except.map]
      congr 1
      split_ifs with h
      · exact congrArg Duration.mk (le_antisymm hqM h)
      · rfl
    rw [h2]
    simp only [Except.map]
    show Except.ok (JSNum.ofRat (q * Duration.NS_PER_MILLI / Duration.NS_PER_SECOND)) = _
    have hdiv : q * Duration.NS_PER_MILLI / Duration.NS_PER_SECOND = q / 1000 := by
      rw [show Duration.NS_PER_MILLI = (1000000 : ℚ) from rfl,
        show Duration.NS_PER_SECOND = (1000000000 : ℚ) from rfl]
      ring
    rw [hdiv]
    have hle : q / 1000 ≤ q * Duration.NS_PER_MILLI := by
      rw [div_eq_mul_inv, mul_comm, show Duration.NS_PER_MILLI = (1000000 : ℚ) from rfl,
        mul_comm q (1000000 : ℚ)]
      exact mul_le_mul_of_nonneg_right (by norm_num) hq
    rw [ofRat_fin_iff.mpr ⟨abs_lt.mpr
      ⟨by linarith [maxFin_pos, div_nonneg hq (by norm_num : (0:ℚ) ≤ 1000)],
        lt_of_le_of_lt hle hov⟩, rfl⟩]

/-- Witness for C6 at `x = 2` seconds and `x = 1500` milliseconds. -/
theorem roundtrip_secs_millis_witness :
    (Duration.fromSecs (.fin 2)).map Duration.asSecs = .ok (.fin 2) ∧
    (Duration.fromMillis (.fin 1500)).map Duration.asSecs =
      .ok (.fin (1500 / 1000)) :=
  ⟨roundtrip_secs_millis.1 2 (by norm_num) (by decide),
    roundtrip_secs_millis.2 1500 (by norm_num) (by decide)⟩

/-- **C7**: `d.clamp(min, max)` raises the range error iff `min` is greater
than `max` (decided by the greater-than comparison); otherwise the result's
count is `d`'s count clamped into `[min, max]`; in particular
`fromSecs(5).clamp(fromSecs(1), fromSecs(3)).asSecs() == 3`. -/
theorem clamp_spec :
    (∀ d lo hi : Duration,
      Duration.clamp d lo hi = .error .minGtMax ↔ lo.gt hi = true) ∧
    (∀ d lo hi : Duration, 0 ≤ lo.nanoseconds → lo.nanoseconds ≤ hi.nanoseconds →
      Duration.clamp d lo hi =
        .ok ⟨min (max d.nanoseconds lo.nanoseconds) hi.nanoseconds⟩) ∧
    ((do
        let d ← Duration.fromSecs (.fin 5)
        let lo ← Duration.fromSecs (.fin 1)
        let hi ← Duration.fromSecs (.fin 3)
        (Duration.clamp d lo hi).map Duration.asSecs) =
      Except.ok (.fin 3)) := by
  refine ⟨fun d lo hi => ?_, fun d lo hi hlo0 hlohi => ?_, by decide⟩
  · unfold Duration.clamp
    split
    · rename_i h
      simp [h]
    · rename_i h
      simp [map_mk_error_iff, toPositive_error_iff, h]
  · unfold Duration.clamp
    rw [if_neg (by simp only [Duration.gt, decide_eq_true_eq]; exact not_lt.mpr hlohi)]
    have hc : 0 ≤ min (max d.nanoseconds lo.nanoseconds) hi.nanoseconds :=
      le_min (le_trans hlo0 (le_max_right _ _)) (le_trans hlo0 hlohi)
    simp only [toPositive, Except.map]
    congr 1
    split_ifs with h
    · exact congrArg Duration.mk (le_antisymm hc h)
    · rfl

/-- Witness for C7: 5 seconds clamped into [1 s, 3 s] is 3 seconds. -/
theorem clamp_spec_witness :
    Duration.clamp ⟨5000000000⟩ ⟨1000000000⟩ ⟨3000000000⟩ = .ok ⟨3000000000⟩ := by
  have h := clamp_spec.2.1 ⟨5000000000⟩ ⟨1000000000⟩ ⟨3000000000⟩
    (by norm_num) (by norm_num)
  rw [max_eq_left (by norm_num), min_eq_right (by norm_num)] at h
  exact h

/-- **C8**: `toString()` is deterministic and total (a function of the
count), and equals the spec-side scan that picks the first unit in the
descending list hour, minute, second, millisecond, microsecond whose scale
divides the count with zero remainder, formatting its magnitude rounded to
six decimal places when fractional, with raw nanoseconds as fallback. -/
theorem toString_refines_unit_scan (d : Duration) :
    Duration.toString d = specToString d := by
  unfold Duration.toString specToString unitScan
  by_cases h1 : jsMod d.nanoseconds Duration.NS_PER_HOUR = 0
  · simp [List.find?, h1, beq_iff_eq.mpr h1]
  · by_cases h2 : jsMod d.nanoseconds Duration.NS_PER_MINUTE = 0
    · simp [List.find?, h1, beq_eq_false_iff_ne.mpr h1, h2, beq_iff_eq.mpr h2]
    · by_cases h3 : jsMod d.nanoseconds Duration.NS_PER_SECOND = 0
      · simp [List.find?, h1, beq_eq_false_iff_ne.mpr h1, h2,
          beq_eq_false_iff_ne.mpr h2, h3, beq_iff_eq.mpr h3]
      · by_cases h4 : jsMod d.nanoseconds Duration.NS_PER_MILLI = 0
        · simp [List.find?, h1, beq_eq_false_iff_ne.mpr h1, h2,
            beq_eq_false_iff_ne.mpr h2, h3, beq_eq_false_iff_ne.mpr h3, h4,
            beq_iff_eq.mpr h4]
        · by_cases h5 : jsMod d.nanoseconds Duration.NS_PER_MICRO = 0
          · simp [List.find?, h1, beq_eq_false_iff_ne.mpr h1, h2,
              beq_eq_false_iff_ne.mpr h2, h3, beq_eq_false_iff_ne.mpr h3, h4,
              beq_eq_false_iff_ne.mpr h4, h5, beq_iff_eq.mpr h5]
          · simp [List.find?, h1, beq_eq_false_iff_ne.mpr h1, h2,
              beq_eq_false_iff_ne.mpr h2, h3, beq_eq_false_iff_ne.mpr h3, h4,
              beq_eq_false_iff_ne.mpr h4, h5, beq_eq_false_iff_ne.mpr h5]

/-- Counterexample to C9 as stated: a 1500 ms Duration does not display as
`"1.5s"` — `1.5e9` ns has remainder `5e8` against the second scale. -/
theorem fromMillis_1500_not_seconds :
    (Duration.fromMillis (.fin 1500)).map Duration.toString ≠ .ok "1.5s" := by
  decide

/-- **C9 (amended)**: `fromMillis(1500).toString()` returns `"1500ms"` —
milliseconds is the largest scanned unit dividing `1.5e9` ns evenly. -/
theorem fromMillis_1500_displays_milliseconds :
    (Duration.fromMillis (.fin 1500)).map Duration.toString = .ok "1500ms" := by
  decide

/-- **C10**: every Duration with zero count formats as `"0h"` (zero divides
the hour scale, which is checked first), including `ZERO` and
`fromMillis(0)`. -/
theorem zero_count_displays_zero_hours :
    (∀ d : Duration, d.nanoseconds = 0 → Duration.toString d = "0h") ∧
    Duration.ZERO.toString = "0h" ∧
    (Duration.fromMillis (.fin 0)).map Duration.toString = .ok "0h" := by
  refine ⟨fun d h => ?_, by decide, by decide⟩
  obtain ⟨n⟩ := d
  simp only at h
  subst h
  decide

/-- Witness for C10 at the concrete zero-count duration. -/
theorem zero_count_displays_zero_hours_witness :
    Duration.toString ⟨0⟩ = "0h" :=
  zero_count_displays_zero_hours.1 ⟨0⟩ rfl

end ConcreteEvaluation

end Nanoduration
